import Mathlib

/-!
Verification development for the ProActive AI Assistant repository.

The definitions below are a shallow embedding of the Python sources:
`agent_logic.py` (datetime resolver, argument normalization, tool dispatch,
orchestration loop, team-member list), `tools/google_calendar.py`
(`check_calendar_availability`), and `tools/restaurant_search.py`
(`search_restaurants`).  External libraries and services (the `dateparser`
library, the regular-expression engine, the Gemini model service, the
Google Calendar and Places HTTP endpoints) are modelled as oracle
parameters; everything that is code of the repository itself is translated
directly.

Conventions:
* Instants are modelled in the single fixed calendar timezone
  (`Asia/Kolkata` in the source); timezone attachment (`tz.localize`,
  `astimezone`) is therefore the identity on the model.
* `PyDateTime.day` counts days from an epoch that falls on a Monday, so
  that `day % 7` coincides with the Python `datetime.weekday()`
  convention (Monday = 0).
* Busy intervals and search windows in the calendar tool are measured in
  minutes (any fixed linear time unit works; the code only compares and
  adds minute-valued offsets).
-/

namespace ProAssist

/-- Lowercasing of a string, modelling the Python `str.lower()` method on
the ASCII inputs the program manipulates. -/
def lowerStr (s : String) : String :=
  String.mk (s.data.map Char.toLower)

/-- Python `s.lower().strip()` as applied to the resolver input before the
regular-expression search (agent_logic.py line 138). -/
def pyLowerStrip (s : String) : String :=
  (lowerStr s).trim

/-- Does `needle` occur at the head of `haystack`?  (Python string
containment helper.) -/
def leadsWith : List Char → List Char → Bool
  | [], _ => true
  | _ :: _, [] => false
  | a :: as, b :: bs => a == b && leadsWith as bs

/-- Does `needle` occur somewhere inside `haystack`?  Models the Python
`in` operator on strings. -/
def hasSub (needle : List Char) : List Char → Bool
  | [] => leadsWith needle []
  | c :: rest => leadsWith needle (c :: rest) || hasSub needle rest

/-- String-level substring containment (Python `needle in haystack`). -/
def hasSubStr (needle haystack : String) : Bool :=
  hasSub needle.toList haystack.toList

/-- The apostrophe character, used when rebuilding the error-message
literals of the source. -/
def apos : String :=
  String.singleton (Char.ofNat 39)

/-- A Python timezone-aware `datetime` value, in the fixed calendar
timezone.  `day` counts days from a Monday epoch. -/
structure PyDateTime where
  day : Nat
  hour : Nat
  minute : Nat
  second : Nat
  deriving DecidableEq, Repr

/-- Python `datetime.weekday()`: Monday is 0. -/
def PyDateTime.weekday (d : PyDateTime) : Nat :=
  d.day % 7

/-- Constructing `datetime(year, month, day, hour, 0, 0)`: the constructor
raises `ValueError` when the hour is not in `0..23` (minutes and seconds
are literal zeros at the call site, agent_logic.py line 162). -/
def mkPyDateTime (day hour : Nat) : Except String PyDateTime :=
  if hour < 24 then .ok ⟨day, hour, 0, 0⟩
  else .error "ValueError: hour must be in 0..23"

/-- The successful capture of the fallback regular expression
`next\s+(monday|...|sunday)\s+at\s+(\d{1,2})\s*(pm|am)?`
(agent_logic.py line 139): the weekday word, the 1-or-2-digit hour, and
the optional am/pm marker. -/
structure RegexMatch where
  dayName : String
  hour : Nat
  ampm : Option String
  deriving DecidableEq, Repr

/-- The weekday-name table `day_map` (agent_logic.py line 142); `none`
models a `KeyError` on a name outside the table. -/
def day_map (s : String) : Option Nat :=
  if s = "monday" then some 0
  else if s = "tuesday" then some 1
  else if s = "wednesday" then some 2
  else if s = "thursday" then some 3
  else if s = "friday" then some 4
  else if s = "saturday" then some 5
  else if s = "sunday" then some 6
  else none

/-- The 12-hour to 24-hour conversion of agent_logic.py lines 156-160:
pm adds 12 unless the hour is 12, and 12 am becomes 0. -/
def to24Hour (hour : Nat) (ampm : Option String) : Nat :=
  if ampm = some "pm" ∧ hour ≠ 12 then hour + 12
  else if ampm = some "am" ∧ hour = 12 then 0
  else hour

/-- The body of the regex fallback (agent_logic.py lines 141-164), run on
a successful match: weekday offset, `next`-semantics bump to a full week,
12h-to-24h conversion, and construction of the resolved instant at
zero minutes and seconds. -/
def fallbackFromMatch (ref : PyDateTime) (m : RegexMatch) : Except String PyDateTime :=
  match day_map m.dayName with
  | none => .error "KeyError"
  | some target_day_of_week =>
    let today_weekday := ref.weekday
    let days_ahead0 := (target_day_of_week + 7 - today_weekday) % 7
    let days_ahead := if days_ahead0 = 0 then 7 else days_ahead0
    mkPyDateTime (ref.day + days_ahead) (to24Hour m.hour m.ampm)

/-- The message of the `ValueError` raised when every parsing strategy
fails (agent_logic.py line 167); the offending input is echoed between
apostrophes. -/
def unparseableMsg (s : String) : String :=
  "Could not parse datetime: " ++ apos ++ s ++ apos ++
    ". Please provide a clearer date/time (e.g., " ++ apos ++
    "YYYY-MM-DD HH:MM" ++ apos ++ ")."

/-- `resolve_datetime_from_string` (agent_logic.py lines 104-167).
`dateparser` is the external probabilistic parser (its exceptions and its
`None` result are both modelled by `none`, since both send the code to the
fallback), and `reSearch` is the regular-expression engine applied to the
lowercased, stripped input.  On a match the deterministic fallback body
runs; otherwise a `ValueError` echoing the input is raised. -/
def resolve_datetime_from_string
    (dateparser : String → Option PyDateTime)
    (reSearch : String → Option RegexMatch)
    (date_time_str : String) (current_context_date : PyDateTime) :
    Except String PyDateTime :=
  match dateparser date_time_str with
  | some parsed_dt => .ok parsed_dt
  | none =>
    match reSearch (pyLowerStrip date_time_str) with
    | some m => fallbackFromMatch current_context_date m
    | none => .error (unparseableMsg date_time_str)

/-! ## Orchestration loop (`agent_logic.py`, `handle_user_input`) -/

/-- A value appearing in the argument map of a model-requested tool call
(the protobuf `function_call.args` structure): strings, resolved
datetimes, integers, floats (modelled as rationals), booleans and
string lists (the shape of the attendee/query list arguments). -/
inductive ArgVal
  | str (s : String)
  | dtv (d : PyDateTime)
  | intv (n : Int)
  | floatv (q : Rat)
  | boolv (b : Bool)
  | listv (elems : List String)
  deriving DecidableEq, Repr

/-- Python truthiness of an argument value (`if datetime_string:` at
agent_logic.py line 286 tests truthiness, not presence). -/
def ArgVal.truthy : ArgVal → Bool
  | .str s => s != ""
  | .dtv _ => true
  | .intv n => n != 0
  | .floatv q => q != 0
  | .boolv b => b
  | .listv l => !l.isEmpty

/-- The keyword-argument dictionary of a tool call. -/
abbrev Args := List (String × ArgVal)

/-- Dictionary lookup (`key in d` / `d[key]`). -/
def dictGet (args : Args) (k : String) : Option ArgVal :=
  (args.find? (fun p => p.1 == k)).map (fun p => p.2)

/-- Dictionary removal (`d.pop(key)` side effect). -/
def dictRemove (args : Args) (k : String) : Args :=
  args.filter (fun p => p.1 != k)

/-- Dictionary write (`d[key] = v`). -/
def dictSet (args : Args) (k : String) (v : ArgVal) : Args :=
  dictRemove args k ++ [(k, v)]

/-- `int()` truncation toward zero, applied to a float expressed as a
rational. -/
def ratTrunc (q : Rat) : Int :=
  Int.tdiv q.num (q.den : Int)

/-- The alias table `dt_string_keys` of agent_logic.py lines 271-276:
string-suffixed key paired with its canonical datetime key. -/
def dt_string_keys : List (String × String) :=
  [("search_start_dt_str", "search_start_dt"),
   ("search_end_dt_str", "search_end_dt"),
   ("slot_datetime_start_str", "slot_datetime_start"),
   ("slot_datetime_end_str", "slot_datetime_end")]

/-- Lines 286-291: if the popped value is truthy it is resolved and the
result is stored under the canonical key; a truthy non-string makes the
resolver raise (in Python, `dateparser.parse` rejects it and
`date_time_str.lower()` then raises `AttributeError`; the message is
abbreviated here).  A falsy value (for strings: the empty string) is
dropped without resolution. -/
def applyResolved (resolver : String → Except String PyDateTime)
    (args : Args) (key_dt : String) (v : ArgVal) : Except String Args :=
  if v.truthy then
    match v with
    | .str s => (resolver s).map (fun dt => dictSet args key_dt (.dtv dt))
    | _ => .error "AttributeError: value has no attribute lower"
  else
    .ok args

/-- One pass of the datetime-coercion loop body (agent_logic.py lines
278-291) for a single `(key_str, key_dt)` pair: pop the string-suffixed
key if present, else pop the canonical key when it holds a string, then
resolve a truthy value. -/
def coerceOneKey (resolver : String → Except String PyDateTime)
    (args : Args) (key_str key_dt : String) : Except String Args :=
  match dictGet args key_str with
  | some v => applyResolved resolver (dictRemove args key_str) key_dt v
  | none =>
    match dictGet args key_dt with
    | some (ArgVal.str s) =>
      applyResolved resolver (dictRemove args key_dt) key_dt (ArgVal.str s)
    | _ => .ok args

/-- The datetime-coercion loop over the four alias pairs; a raised
resolver fault aborts the remaining iterations (it propagates to the
per-call `except` handler). -/
def normalizeDTKeys (resolver : String → Except String PyDateTime) :
    List (String × String) → Args → Except String Args
  | [], args => .ok args
  | (key_str, key_dt) :: rest, args => do
    let args1 ← coerceOneKey resolver args key_str key_dt
    normalizeDTKeys resolver rest args1

/-- Lines 294-295: `slot_duration_minutes`, when a float, is truncated to
an integer. -/
def coerceSlotDuration (args : Args) : Args :=
  match dictGet args "slot_duration_minutes" with
  | some (ArgVal.floatv q) =>
    dictSet args "slot_duration_minutes" (ArgVal.intv (ratTrunc q))
  | _ => args

/-- The full pre-invocation normalization applied to the two
calendar-related tools (agent_logic.py lines 266-295). -/
def normalizeCalendarArgs (resolver : String → Except String PyDateTime)
    (args : Args) : Except String Args := do
  let args1 ← normalizeDTKeys resolver dt_string_keys args
  .ok (coerceSlotDuration args1)

/-- A JSON-like tool-result value; `dtv` marks an embedded Python
`datetime` object awaiting ISO-8601 serialization. -/
inductive JVal
  | str (s : String)
  | intv (n : Int)
  | boolv (b : Bool)
  | dtv (d : PyDateTime)
  | listv (elems : List JVal)
  | obj (fields : List (String × JVal))

/-- Rendering of an instant by `datetime.isoformat()`.  The model counts
days from the epoch instead of carrying a year/month/day triple, so the
date part is rendered as a day count; the function is injective on the
model exactly as `isoformat` is on real datetimes. -/
def dtToIso (d : PyDateTime) : String :=
  "day" ++ toString d.day ++ "T" ++ toString d.hour ++ ":" ++
    toString d.minute ++ ":" ++ toString d.second ++ "+05:30"

mutual

/-- `convert_datetimes_to_iso` (agent_logic.py lines 84-102): recursively
replace every datetime by its ISO string. -/
def convert_datetimes_to_iso : JVal → JVal
  | .dtv d => .str (dtToIso d)
  | .listv l => .listv (convertJList l)
  | .obj fs => .obj (convertJObj fs)
  | .str s => .str s
  | .intv n => .intv n
  | .boolv b => .boolv b

/-- List case of `convert_datetimes_to_iso`. -/
def convertJList : List JVal → List JVal
  | [] => []
  | v :: rest => convert_datetimes_to_iso v :: convertJList rest

/-- Dictionary case of `convert_datetimes_to_iso`. -/
def convertJObj : List (String × JVal) → List (String × JVal)
  | [] => []
  | (k, v) :: rest => (k, convert_datetimes_to_iso v) :: convertJObj rest

end

/-- A structured tool call requested by the model. -/
structure FunctionCall where
  name : String
  args : Args
  deriving DecidableEq, Repr

/-- One Part of a model response: text, a function call, or unrecognized
content (neither attribute set). -/
inductive Part
  | text (s : String)
  | functionCall (fc : FunctionCall)
  | other
  deriving DecidableEq, Repr

/-- `part.function_call` truthiness filter (agent_logic.py line 251). -/
def Part.getFC : Part → Option FunctionCall
  | .functionCall fc => some fc
  | _ => none

/-- `part.text` truthiness filter (line 252): on non-text parts the
attribute is the empty string, and empty text is likewise falsy. -/
def Part.getText : Part → Option String
  | .text s => if s = "" then none else some s
  | _ => none

/-- The payload of one `function_response` entry: `{"result": ...}` on
success, `{"error": message}` on failure. -/
inductive RespPayload
  | result (v : JVal)
  | error (msg : String)

/-- One `function_response` record sent back to the model. -/
structure ToolResponse where
  name : String
  payload : RespPayload

/-- A history entry of `conversation_history`: the user message, the raw
model content, a batch of tool responses, or the final joined model
text. -/
inductive HistEntry
  | userMsg (text : String)
  | modelContent (parts : List Part)
  | toolBatch (responses : List ToolResponse)
  | modelText (text : String)

/-- The ephemeral result caches (agent_logic.py lines 49-51). -/
structure Caches where
  available_slots_cache : JVal
  found_restaurants_cache : JVal

/-- The mutable agent state touched by `handle_user_input`. -/
structure AgentState where
  history : List HistEntry
  caches : Caches

/-- The registered tool names, the keys of `available_tools`
(agent_logic.py lines 36-41). -/
def available_tools : List String :=
  ["check_calendar_availability", "send_calendar_invite",
   "search_restaurants", "Google Search"]

/-- The tools receiving argument normalization (line 266). -/
def calendarTools : List String :=
  ["check_calendar_availability", "send_calendar_invite"]

/-- The external world as seen by one run of the loop: the `dateparser`
library, the regex engine, the current instant in the fixed calendar
timezone, and the I/O behavior of the registered tool implementations. -/
structure Env where
  dateparser : String → Option PyDateTime
  reSearch : String → Option RegexMatch
  now : PyDateTime
  execTool : String → Args → Except String JVal

/-- The `try:` body of one tool invocation (agent_logic.py lines
264-310): normalize arguments for the calendar tools (using now in the
fixed timezone as the resolver reference), execute, and update the result
caches on success.  An `.error` models a raised exception. -/
def runToolAttempt (env : Env) (caches : Caches) (name : String)
    (args : Args) : Except String (JVal × Caches) := do
  let args1 ←
    if name ∈ calendarTools then
      normalizeCalendarArgs
        (fun s => resolve_datetime_from_string env.dateparser env.reSearch s env.now)
        args
    else
      Except.ok args
  let tool_result ← env.execTool name args1
  let caches1 :=
    if name = "check_calendar_availability" then
      { caches with available_slots_cache := tool_result }
    else if name = "search_restaurants" then
      { caches with found_restaurants_cache := tool_result }
    else caches
  .ok (tool_result, caches1)

/-- Message of the unregistered-tool branch (line 319). -/
def toolNotFoundMsg (name : String) : String :=
  "Tool " ++ apos ++ name ++ apos ++ " not found."

/-- Message of the caught-exception branch (line 314). -/
def execErrorMsg (name e : String) : String :=
  "Error executing tool " ++ name ++ ": " ++ e

/-- Processing of a single requested call (lines 257-321): dispatch
through the registry, catch any raised fault as an error payload, fall to
the not-found payload on an unregistered name. -/
def processOneCall (env : Env) (caches : Caches) (fc : FunctionCall) :
    ToolResponse × Caches :=
  if fc.name ∈ available_tools then
    match runToolAttempt env caches fc.name fc.args with
    | .ok (v, caches1) =>
      (⟨fc.name, .result (convert_datetimes_to_iso v)⟩, caches1)
    | .error e =>
      (⟨fc.name, .error (execErrorMsg fc.name e)⟩, caches)
  else
    (⟨fc.name, .error (toolNotFoundMsg fc.name)⟩, caches)

/-- The `for function_call in tool_call_parts:` loop (line 257): one
response per call, in order, threading the caches. -/
def processCalls (env : Env) (caches : Caches) :
    List FunctionCall → List ToolResponse × Caches
  | [] => ([], caches)
  | fc :: rest =>
    let r := processOneCall env caches fc
    let rr := processCalls env r.2 rest
    (r.1 :: rr.1, rr.2)

/-- A model response, as the loop sees it: its list of Parts (an empty
list covers both a missing candidate and empty content). -/
abbrev ModelResponse := List Part

/-- How one turn of `handle_user_input` ends: with a printed final text,
or with an uncaught fault from the model service itself
(`chat.send_message` raising), which aborts the turn. -/
inductive Outcome
  | finalText (s : String)
  | upstreamFailure

/-- Fallback message when the response has no candidates or no parts
(agent_logic.py line 344). -/
def respNoCandidates : String :=
  "I" ++ apos ++ "m not sure how to respond to that."

/-- Fallback message when parts carry neither tool calls nor text
(line 339). -/
def respNoContent : String :=
  "I processed the request but have no specific response."

/-- The `while True:` orchestration loop (agent_logic.py lines 249-345).
The unconsumed tail of the model-service conversation is the `script`
argument: each time tool results are sent back, the next scripted
response is received; an exhausted script models the model-service call
failing, which is not caught.  Note which branches append to the
history: the tool branch appends the batch (but not the following model
response), the text branch appends the joined text, and the two fallback
branches append nothing. -/
def agentLoop (env : Env) :
    List ModelResponse → AgentState → List Part → AgentState × Outcome
  | script, st, parts =>
    match parts with
    | [] => (st, .finalText respNoCandidates)
    | _ :: _ =>
      let tool_call_parts := parts.filterMap Part.getFC
      let text_response_parts := parts.filterMap Part.getText
      if tool_call_parts.isEmpty then
        if text_response_parts.isEmpty then
          (st, .finalText respNoContent)
        else
          let full_text_response := String.intercalate " " text_response_parts
          (⟨st.history ++ [HistEntry.modelText full_text_response], st.caches⟩,
            .finalText full_text_response)
      else
        let pr := processCalls env st.caches tool_call_parts
        let st1 : AgentState := ⟨st.history ++ [HistEntry.toolBatch pr.1], pr.2⟩
        match script with
        | [] => (st1, .upstreamFailure)
        | next :: rest => agentLoop env rest st1 next

/-- `handle_user_input` (agent_logic.py lines 190-345): append the user
turn, receive the first response, append it as raw model content when it
has parts (lines 226-227), and enter the loop. -/
def handle_user_input (env : Env) (user_input : String)
    (firstResponse : List Part) (script : List ModelResponse)
    (st : AgentState) : AgentState × Outcome :=
  let st1 : AgentState := ⟨st.history ++ [HistEntry.userMsg user_input], st.caches⟩
  let st2 : AgentState :=
    match firstResponse with
    | [] => st1
    | _ :: _ => ⟨st1.history ++ [HistEntry.modelContent firstResponse], st1.caches⟩
  agentLoop env script st2 firstResponse

/-! ### Run measures

Observables of one run, used to state how the history length evolves:
how many tool batches are sent, how many model responses are processed,
and how many model turns the loop itself appends. -/

/-- Is a history entry a `model` turn (raw content or joined text)? -/
def isModelEntry : HistEntry → Bool
  | .modelContent _ => true
  | .modelText _ => true
  | _ => false

/-- Is a history entry a `tool` turn? -/
def isToolEntry : HistEntry → Bool
  | .toolBatch _ => true
  | _ => false

/-- Number of `model` turns in a history. -/
def countModelEntries (h : List HistEntry) : Nat :=
  h.countP isModelEntry

/-- Number of `tool` turns in a history. -/
def countToolEntries (h : List HistEntry) : Nat :=
  h.countP isToolEntry

/-- Number of tool-result batches the loop sends for a given first
response and scripted continuation. -/
def numBatches : List ModelResponse → List Part → Nat
  | script, parts =>
    if parts.isEmpty then 0
    else if (parts.filterMap Part.getFC).isEmpty then 0
    else
      match script with
      | [] => 1
      | next :: rest => 1 + numBatches rest next

/-- Number of model turns the loop itself appends (one per text-terminal
response; none for tool-call responses or fallbacks). -/
def numModelAppends : List ModelResponse → List Part → Nat
  | script, parts =>
    if parts.isEmpty then 0
    else if (parts.filterMap Part.getFC).isEmpty then
      if (parts.filterMap Part.getText).isEmpty then 0 else 1
    else
      match script with
      | [] => 0
      | next :: rest => numModelAppends rest next

/-- Number of model responses the loop receives and processes during one
turn (the first response plus one per answered batch). -/
def numResponsesProcessed : List ModelResponse → List Part → Nat
  | script, parts =>
    if parts.isEmpty then 1
    else if (parts.filterMap Part.getFC).isEmpty then 1
    else
      match script with
      | [] => 1
      | next :: rest => 1 + numResponsesProcessed rest next

/-! ## Calendar availability (`tools/google_calendar.py`) -/

/-- Lexicographic comparison of interval pairs: the order used by the
Python `list.sort()` on `(start, end)` tuples. -/
def lexLe (a b : Int × Int) : Prop :=
  a.1 < b.1 ∨ (a.1 = b.1 ∧ a.2 ≤ b.2)

instance : DecidableRel lexLe := fun a b => by
  unfold lexLe
  exact inferInstance

instance : IsTotal (Int × Int) lexLe := by
  constructor
  intro a b
  unfold lexLe
  omega

instance : IsTrans (Int × Int) lexLe := by
  constructor
  intro a b c
  unfold lexLe
  omega

/-- `all_busy_intervals.sort()` (google_calendar.py line 155): tuples are
sorted lexicographically; since the lexicographic order is antisymmetric
on pairs, the sorted permutation is unique and any sorting algorithm
matches the Python library sort. -/
def sortIntervals (l : List (Int × Int)) : List (Int × Int) :=
  List.insertionSort lexLe l

/-- The merging loop over the sorted busy intervals (google_calendar.py
lines 157-166), carrying the current accumulated interval. -/
def mergeLoop (cs ce : Int) : List (Int × Int) → List (Int × Int)
  | [] => [(cs, ce)]
  | (ns, ne) :: rest =>
    if ns ≤ ce then mergeLoop cs (max ce ne) rest
    else (cs, ce) :: mergeLoop ns ne rest

/-- Sorting plus merging of all busy intervals (lines 155-166); an empty
collection merges to the empty list. -/
def mergeIntervals (l : List (Int × Int)) : List (Int × Int) :=
  match sortIntervals l with
  | [] => []
  | (s, e) :: rest => mergeLoop s e rest

/-- The per-candidate freeness check (lines 172-175): a slot `[s, e)` is
free when, against every busy interval, it ends before the busy start or
starts after the busy end. -/
def slotIsFree (s e : Int) (busy : List (Int × Int)) : Bool :=
  busy.all (fun b => decide (e ≤ b.1) || decide (s ≥ b.2))

/-- The candidate-scanning `while` loop (lines 169-180): starting at `s`,
every 30 minutes, keep each free slot of length `dur` whose end does not
pass `sEnd`. -/
def collectSlots (dur : Int) (busy : List (Int × Int)) (sEnd : Int)
    (s : Int) : List (Int × Int) :=
  if s + dur ≤ sEnd then
    (if slotIsFree s (s + dur) busy then [(s, s + dur)] else []) ++
      collectSlots dur busy sEnd (s + 30)
  else []
termination_by (sEnd + 1 - (s + dur)).toNat
decreasing_by omega

/-- The successful-query path of `check_calendar_availability` (lines
150-190): merge the busy intervals reported by the free/busy query
(already flattened across calendars), scan for free candidates, and keep
the first three.  The display-string formatting of each returned record
is presentational and omitted; a slot record is its
`(start_datetime, end_datetime)` pair. -/
def computeFreeSlots (busy : List (Int × Int))
    (search_start_dt search_end_dt slot_duration_minutes : Int) :
    List (Int × Int) :=
  (collectSlots slot_duration_minutes (mergeIntervals busy)
    search_end_dt search_start_dt).take 3

/-- `check_calendar_availability` (google_calendar.py lines 107-196).
`freebusy` is the outcome of the external free/busy query: `none` models
every failure path (missing service handle, `HttpError`, any other
exception), on which the function returns the empty list; `some busy`
carries the parsed busy intervals of all queried calendars. -/
def check_calendar_availability (freebusy : Option (List (Int × Int)))
    (search_start_dt search_end_dt slot_duration_minutes : Int) :
    List (Int × Int) :=
  match freebusy with
  | none => []
  | some busy =>
    computeFreeSlots busy search_start_dt search_end_dt slot_duration_minutes

/-! ## Restaurant search (`tools/restaurant_search.py`) -/

/-- One place record of the Places API response, with the optional fields
the code reads.  A JSON `rating` number is carried as its decimal text,
matching the `str(rating)` conversion applied to it. -/
structure Place where
  name : Option String
  formatted_address : Option String
  rating : Option String
  types : List String
  deriving DecidableEq, Repr

/-- A returned restaurant record. -/
structure Restaurant where
  name : String
  address : String
  rating : String
  cuisine : String
  booking_url : String
  deriving DecidableEq, Repr

/-- The outcome of the Places HTTP interaction: missing API key, a raised
request fault (connection error, bad HTTP status, or any other
exception), or a decoded JSON response with its status, result records
and optional error message. -/
inductive PlacesOutcome
  | noKey
  | requestError (msg : String)
  | apiResponse (status : String) (results : List Place)
      (error_message : Option String)

/-- The hard-coded simulated fallback records
(restaurant_search.py, repeated at lines 14-19, 80-85 and 94-98). -/
def dummyRestaurants : List Restaurant :=
  [⟨"Paradise Biryani (Simulated)", "Gachibowli, Hyderabad (Simulated Address)",
    "4.1", "Hyderabadi Biryani", "https://example.com/simulated-booking"⟩,
   ⟨"Bawarchi (Simulated)", "RTC Cross Roads, Hyderabad (Simulated Address)",
    "4.3", "Hyderabadi, North Indian", "https://example.com/simulated-booking"⟩,
   ⟨"Sarvi (Simulated)", "Banjara Hills, Hyderabad (Simulated Address)",
    "4.0", "Hyderabadi, Multi-Cuisine", "https://example.com/simulated-booking"⟩]

/-- The injected Google Reserve URL for the Chowman Gurgaon special case
(restaurant_search.py line 57). -/
def chowmanReserveUrl : String :=
  "https://www.google.com/maps/reserve/v/dine/c/FLzW2pMrpZ4?source=pa&opi=89978449&hl=en-IN&gei=44l_aMD9MZ6VseMP9Py_6Qo&sourceurl=https%3A%2F%2Fwww.google.com%2Fsearch%3Fq%3DChowman%2BGurgaon%26oq%3DChowman%2BGurgaon%26gs_lcrp%3DEgZjaHJvbWUyBggAEEUYOTIGCAEQRRg8MgYIAhBFGD0yBggDEC4YQNIBBzU4MmowajGoAgiwAgE%26sourceid%3Dchrome%26ie%3DUTF-8&ihs=3"

/-- Building one returned record from a place (restaurant_search.py lines
45-75): defaulted fields, the cuisine-hint heuristic, and the booking-URL
choice. -/
def mkRestaurant (cuisine : String) (place : Place) : Restaurant :=
  let name := place.name.getD "N/A"
  let address := place.formatted_address.getD "N/A"
  let rating := place.rating.getD "N/A"
  let cuisine_hint0 := String.intercalate ", " place.types
  let cuisine_hint :=
    if lowerStr cuisine ≠ "any" ∧
        hasSubStr (lowerStr cuisine) (lowerStr cuisine_hint0) = false then
      cuisine
    else if cuisine_hint0 = "" then cuisine
    else cuisine_hint0
  let booking_url :=
    if hasSubStr "chowman" (lowerStr name) ∧
        hasSubStr "gurgaon" (lowerStr address) then
      chowmanReserveUrl
    else
      "https://example.com/booking/" ++ lowerStr (name.replace " " "-")
  ⟨name, address, rating, cuisine_hint, booking_url⟩

/-- The collection loop over API results (lines 41-75), with its break
once `max_results` records are collected (checked before each append). -/
def collectPlaces (cuisine : String) (max_results : Int)
    (acc : List Restaurant) : List Place → List Restaurant
  | [] => acc
  | place :: rest =>
    if (acc.length : Int) ≥ max_results then acc
    else collectPlaces cuisine max_results (acc ++ [mkRestaurant cuisine place]) rest

/-- `search_restaurants` (restaurant_search.py lines 11-98).  Every
failure path (missing key, raised request fault, non-OK status, or an
empty collection) returns the simulated records; a successful collection
is returned as-is. -/
def search_restaurants (outcome : PlacesOutcome)
    (cuisine location : String) (max_results : Int) : List Restaurant :=
  match outcome with
  | .noKey => dummyRestaurants
  | .requestError _ => dummyRestaurants
  | .apiResponse status results _ =>
    let restaurants_found :=
      if status = "OK" then collectPlaces cuisine max_results [] results
      else []
    if restaurants_found.isEmpty then dummyRestaurants else restaurants_found

/-! ## Team members (`agent_logic.py` lines 53, 71-81; `prompts.py`) -/

/-- The seeded default Team Member Set (prompts.py lines 148-151). -/
def TEAM_MEMBERS_INITIAL : List String :=
  ["puravmalikcse@gmail.com", "puravmalikcse2@gmail.com"]

/-- `update_team_members` (agent_logic.py lines 71-81): append each new
email not already present, by exact string comparison. -/
def update_team_members (current_team_members new_emails : List String) :
    List String :=
  new_emails.foldl
    (fun acc email => if email ∈ acc then acc else acc ++ [email])
    current_team_members

/-! ## Concrete instances used by witnesses and counterexamples -/

/-- A dateparser oracle that never parses. -/
def dpNone : String → Option PyDateTime := fun _ => none

/-- A regex oracle that never matches. -/
def rmNone : String → Option RegexMatch := fun _ => none

/-- A reference instant falling on a Monday (day 700 = 0 mod 7), 9:30. -/
def refMonday : PyDateTime := ⟨700, 9, 30, 0⟩

/-- A regex oracle reporting the capture of `next tuesday at 5 pm`. -/
def rmTue5pm : String → Option RegexMatch :=
  fun _ => some ⟨"tuesday", 5, some "pm"⟩

/-- A regex oracle reporting the capture of `next monday at 13 pm`
(the two-digit group `\d{1,2}` accepts `13`). -/
def rmMon13pm : String → Option RegexMatch :=
  fun _ => some ⟨"monday", 13, some "pm"⟩

/-- Empty caches, as at process start. -/
def caches0 : Caches := ⟨JVal.listv [], JVal.listv []⟩

/-- Empty agent state. -/
def st0 : AgentState := ⟨[], caches0⟩

/-- An environment whose tools all succeed with a constant payload. -/
def envBase : Env := ⟨dpNone, rmNone, refMonday, fun _ _ => .ok (JVal.str "ok")⟩

/-- An environment whose tools all raise. -/
def envErr : Env := ⟨dpNone, rmNone, refMonday, fun _ _ => .error "boom"⟩

/-- A concrete generic-search tool call. -/
def fcSearch : FunctionCall := ⟨"Google Search", [("queries", ArgVal.listv ["x"])]⟩

/-- A model response consisting of one tool call. -/
def respToolCall : List Part := [Part.functionCall fcSearch]

/-- A model response consisting of final text. -/
def respDone : List Part := [Part.text "done"]

/-- A resolver oracle that succeeds on every input. -/
def resolverOK : String → Except String PyDateTime := fun _ => .ok refMonday

/-- A dateparser oracle that succeeds on every input. -/
def dpAlways : String → Option PyDateTime := fun _ => some refMonday

/-! ## Helper lemmas -/

theorem leadsWith_append (n suf : List Char) : leadsWith n (n ++ suf) = true := by
  induction n with
  | nil => rfl
  | cons a as ih => simp [leadsWith, ih]

theorem hasSub_append_left (n : List Char) :
    ∀ (pre rest : List Char), hasSub n rest = true → hasSub n (pre ++ rest) = true := by
  intro pre
  induction pre with
  | nil => intro rest h; simpa using h
  | cons c cs ih =>
    intro rest h
    cases hcr : cs ++ rest with
    | nil =>
      have := ih rest h
      rw [hcr] at this
      simp [hasSub, hcr, this]
    | cons d ds =>
      have := ih rest h
      rw [hcr] at this
      simp [hasSub, hcr, this]

theorem hasSub_self_append (n suf : List Char) : hasSub n (n ++ suf) = true := by
  cases hns : n ++ suf with
  | nil =>
    have hn : n = [] := by
      cases n with
      | nil => rfl
      | cons a as => simp at hns
    simp [hasSub, hns, hn, leadsWith]
  | cons d ds => rw [hasSub, ← hns, leadsWith_append n suf]; simp

/-- A string is a substring of any sandwich around it. -/
theorem hasSubStr_sandwich (a s b : String) : hasSubStr s (a ++ s ++ b) = true := by
  show hasSub s.data (a ++ s ++ b).data = true
  rw [String.data_append (a ++ s) b, String.data_append a s, List.append_assoc]
  exact hasSub_append_left s.data a.data (s.data ++ b.data) (hasSub_self_append s.data b.data)

theorem day_map_lt {s : String} {t : Nat} (h : day_map s = some t) : t < 7 := by
  unfold day_map at h
  split_ifs at h <;> simp_all <;> omega

theorem collectPlaces_length (cuisine : String) (maxr : Int) :
    ∀ (results : List Place) (acc : List Restaurant),
      (acc.length : Int) ≤ maxr →
      ((collectPlaces cuisine maxr acc results).length : Int) ≤ maxr := by
  intro results
  induction results with
  | nil => intro acc h; simpa [collectPlaces] using h
  | cons p rest ih =>
    intro acc h
    by_cases hge : (acc.length : Int) ≥ maxr
    · simpa [collectPlaces, hge] using h
    · rw [collectPlaces, if_neg hge]
      apply ih
      have hl : ((acc ++ [mkRestaurant cuisine p]).length : Int) = (acc.length : Int) + 1 := by
        simp
      rw [hl]
      omega

theorem collectPlaces_nil_of_nonpos (cuisine : String) (maxr : Int)
    (h : maxr ≤ 0) : ∀ results : List Place, collectPlaces cuisine maxr [] results = [] := by
  intro results
  cases results with
  | nil => rfl
  | cons p rest =>
    rw [collectPlaces, if_pos]
    simp
    omega

/-! ## Claim theorems -/

/-- Claim C7: for every input string on which both the general
natural-language parse and the regex fallback fail, the datetime resolver
raises an error whose message contains the offending input string
verbatim; it never returns a silently defaulted instant for such an
input. -/
theorem claim_C7 (dp : String → Option PyDateTime)
    (rm : String → Option RegexMatch) (s : String) (ref : PyDateTime)
    (hdp : dp s = none) (hrm : rm (pyLowerStrip s) = none) :
    resolve_datetime_from_string dp rm s ref = .error (unparseableMsg s) ∧
    hasSubStr s (unparseableMsg s) = true := by
  constructor
  · simp [resolve_datetime_from_string, hdp, hrm]
  · have hmsg : unparseableMsg s =
        ("Could not parse datetime: " ++ apos) ++ s ++
          (apos ++ ". Please provide a clearer date/time (e.g., " ++ apos ++
            "YYYY-MM-DD HH:MM" ++ apos ++ ").") := by
      simp [unparseableMsg, String.append_assoc]
    rw [hmsg]
    exact hasSubStr_sandwich _ s _

/-- Witness for C7 at a concrete unparseable input. -/
theorem claim_C7_witness :
    resolve_datetime_from_string dpNone rmNone "gibberish" refMonday =
      .error (unparseableMsg "gibberish") ∧
    hasSubStr "gibberish" (unparseableMsg "gibberish") = true :=
  claim_C7 dpNone rmNone "gibberish" refMonday rfl rfl

/-- Claim C4, counterexample to the original statement: the hour group
`\d{1,2}` of the fallback regex also accepts `13`, and on
`next monday at 13 pm` the 12-hour conversion produces 25, so the
`datetime` constructor raises `ValueError` instead of yielding an instant
on the requested weekday at a correct hour. -/
theorem claim_C4_counterexample :
    resolve_datetime_from_string dpNone rmMon13pm "next monday at 13 pm" refMonday =
      .error "ValueError: hour must be in 0..23" := rfl

/-- Claim C4 (amended: restricted to hours whose 12-hour-to-24-hour
conversion lies below 24, in particular all hours 1..12): resolving
`next W at H am/pm` through the regex fallback from any reference instant
yields an instant strictly more than 0 and at most 7 days after the
reference date, falling on weekday W, at the converted 24-hour hour
(12 pm stays 12, 12 am becomes 0, other pm hours add 12) with zero
minutes and seconds; when the reference weekday already equals W the
result is exactly 7 days ahead. -/
theorem claim_C4 (dp : String → Option PyDateTime)
    (rm : String → Option RegexMatch) (s : String) (ref : PyDateTime)
    (m : RegexMatch) (target : Nat)
    (hdp : dp s = none) (hrm : rm (pyLowerStrip s) = some m)
    (hdm : day_map m.dayName = some target)
    (hampm : m.ampm = some "am" ∨ m.ampm = some "pm")
    (hlt : to24Hour m.hour m.ampm < 24) :
    ∃ dt : PyDateTime,
      resolve_datetime_from_string dp rm s ref = .ok dt ∧
      ref.day < dt.day ∧ dt.day ≤ ref.day + 7 ∧ dt.day % 7 = target ∧
      dt.hour = to24Hour m.hour m.ampm ∧ dt.minute = 0 ∧ dt.second = 0 ∧
      (ref.day % 7 = target → dt.day = ref.day + 7) := by
  have htlt : target < 7 := day_map_lt hdm
  refine ⟨⟨ref.day + (if (target + 7 - ref.day % 7) % 7 = 0 then 7
             else (target + 7 - ref.day % 7) % 7),
          to24Hour m.hour m.ampm, 0, 0⟩, ?_, ?_, ?_, ?_, rfl, rfl, rfl, ?_⟩
  · simp [resolve_datetime_from_string, hdp, hrm, fallbackFromMatch, hdm,
      PyDateTime.weekday, mkPyDateTime, hlt]
  · dsimp only; split_ifs <;> omega
  · dsimp only; split_ifs <;> omega
  · dsimp only; split_ifs <;> omega
  · intro h; dsimp only; split_ifs <;> omega

/-- Witness for C4: `next tuesday at 5 pm` from a Monday reference. -/
theorem claim_C4_witness :
    ∃ dt : PyDateTime,
      resolve_datetime_from_string dpNone rmTue5pm "next tuesday at 5 pm" refMonday =
        .ok dt ∧
      refMonday.day < dt.day ∧ dt.day ≤ refMonday.day + 7 ∧ dt.day % 7 = 1 ∧
      dt.hour = to24Hour 5 (some "pm") ∧ dt.minute = 0 ∧ dt.second = 0 ∧
      (refMonday.day % 7 = 1 → dt.day = refMonday.day + 7) :=
  claim_C4 dpNone rmTue5pm "next tuesday at 5 pm" refMonday
    ⟨"tuesday", 5, some "pm"⟩ 1 rfl rfl (by decide) (Or.inr rfl) (by decide)

/-- Claim C9, counterexample to the original statement: deduplication in
`update_team_members` is by exact string equality, so two spellings of
the same email address (here differing only in letter case, equal after
lowercasing) are both kept as separate entries. -/
theorem claim_C9_counterexample :
    update_team_members (update_team_members TEAM_MEMBERS_INITIAL ["a@x.com"]) ["A@x.com"] =
      TEAM_MEMBERS_INITIAL ++ ["a@x.com", "A@x.com"] ∧
    lowerStr "A@x.com" = lowerStr "a@x.com" ∧
    ("a@x.com" : String) ≠ "A@x.com" := by
  refine ⟨by decide, by decide, by decide⟩

/-- Claim C9 (amended: duplicate-freedom holds for exact string equality,
not for normalized-email equality — differently-spelled forms of one
address are kept as distinct entries): `update_team_members` never
removes an entry, preserves every existing entry, and keeps the list
duplicate-free under exact string equality. -/
theorem claim_C9 (current new : List String) :
    current <+: update_team_members current new ∧
    (∀ x ∈ current, x ∈ update_team_members current new) ∧
    (current.Nodup → (update_team_members current new).Nodup) := by
  induction new generalizing current with
  | nil => exact ⟨List.prefix_rfl, fun x hx => hx, fun h => h⟩
  | cons e rest ih =>
    have hstep : update_team_members current (e :: rest) =
        update_team_members (if e ∈ current then current else current ++ [e]) rest := rfl
    by_cases he : e ∈ current
    · rw [hstep, if_pos he]; exact ih current
    · rw [hstep, if_neg he]
      obtain ⟨h1, h2, h3⟩ := ih (current ++ [e])
      refine ⟨(List.prefix_append current [e]).trans h1,
        fun x hx => h2 x (List.mem_append_left _ hx), fun hn => h3 ?_⟩
      rw [List.nodup_append]
      exact ⟨hn, List.nodup_singleton e, by simpa using he⟩

/-- Witness for C9 at the seeded default set. -/
theorem claim_C9_witness :
    TEAM_MEMBERS_INITIAL <+: update_team_members TEAM_MEMBERS_INITIAL ["new@x.com"] ∧
    "puravmalikcse@gmail.com" ∈ update_team_members TEAM_MEMBERS_INITIAL ["new@x.com"] ∧
    (update_team_members TEAM_MEMBERS_INITIAL ["new@x.com"]).Nodup :=
  ⟨(claim_C9 TEAM_MEMBERS_INITIAL ["new@x.com"]).1,
   (claim_C9 TEAM_MEMBERS_INITIAL ["new@x.com"]).2.1 "puravmalikcse@gmail.com" (by decide),
   (claim_C9 TEAM_MEMBERS_INITIAL ["new@x.com"]).2.2 (by decide)⟩

/-- Claim C10: `search_restaurants` never returns an empty list and never
raises: when the Places key is missing, the request faults, the response
status is not OK, or no records are collected, it returns the fixed
simulated records; otherwise it returns at most `max_results` records
(each record of the returned type carries the name, address, rating,
cuisine and booking-url fields). -/
theorem claim_C10 (outcome : PlacesOutcome) (cuisine location : String)
    (max_results : Int) :
    search_restaurants outcome cuisine location max_results ≠ [] ∧
    (search_restaurants outcome cuisine location max_results = dummyRestaurants ∨
      ((search_restaurants outcome cuisine location max_results).length : Int) ≤ max_results) ∧
    (outcome = .noKey →
      search_restaurants outcome cuisine location max_results = dummyRestaurants) ∧
    (∀ msg, outcome = .requestError msg →
      search_restaurants outcome cuisine location max_results = dummyRestaurants) ∧
    (∀ status results em, outcome = .apiResponse status results em → status ≠ "OK" →
      search_restaurants outcome cuisine location max_results = dummyRestaurants) ∧
    (∀ status results em, outcome = .apiResponse status results em →
      collectPlaces cuisine max_results [] results = [] →
      search_restaurants outcome cuisine location max_results = dummyRestaurants) := by
  have hdne : dummyRestaurants ≠ [] := by simp [dummyRestaurants]
  cases outcome with
  | noKey =>
    refine ⟨hdne, Or.inl rfl, fun _ => rfl, ?_, ?_, ?_⟩
    · intro msg h; exact absurd h (by simp)
    · intro status results em h; exact absurd h (by simp)
    · intro status results em h; exact absurd h (by simp)
  | requestError msg0 =>
    refine ⟨hdne, Or.inl rfl, ?_, fun _ _ => rfl, ?_, ?_⟩
    · intro h; exact absurd h (by simp)
    · intro status results em h; exact absurd h (by simp)
    · intro status results em h; exact absurd h (by simp)
  | apiResponse status0 results0 em0 =>
    have himp1 : (PlacesOutcome.apiResponse status0 results0 em0) = .noKey → False := by simp
    have hcore : search_restaurants (.apiResponse status0 results0 em0) cuisine location max_results ≠ [] ∧
        (search_restaurants (.apiResponse status0 results0 em0) cuisine location max_results = dummyRestaurants ∨
          ((search_restaurants (.apiResponse status0 results0 em0) cuisine location max_results).length : Int) ≤ max_results) := by
      by_cases hOK : status0 = "OK"
      · by_cases hE : collectPlaces cuisine max_results [] results0 = []
        · have hs : search_restaurants (.apiResponse status0 results0 em0) cuisine location max_results = dummyRestaurants := by
            simp [search_restaurants, hOK, hE]
          exact ⟨by rw [hs]; exact hdne, Or.inl hs⟩
        · have hs : search_restaurants (.apiResponse status0 results0 em0) cuisine location max_results =
              collectPlaces cuisine max_results [] results0 := by
            simp [search_restaurants, hOK, hE]
          have hmpos : ¬ max_results ≤ 0 := fun hm =>
            hE (collectPlaces_nil_of_nonpos cuisine max_results hm results0)
          have hlen := collectPlaces_length cuisine max_results results0 []
            (by simp; omega)
          exact ⟨by rw [hs]; exact hE, Or.inr (by rw [hs]; exact hlen)⟩
      · have hs : search_restaurants (.apiResponse status0 results0 em0) cuisine location max_results = dummyRestaurants := by
          simp [search_restaurants, hOK]
        exact ⟨by rw [hs]; exact hdne, Or.inl hs⟩
    refine ⟨hcore.1, hcore.2, fun h => absurd h (by simp), ?_, ?_, ?_⟩
    · intro msg h; exact absurd h (by simp)
    · intro status results em h hne
      obtain ⟨h1, h2, h3⟩ : status0 = status ∧ results0 = results ∧ em0 = em := by
        injection h with a b c; exact ⟨a, b, c⟩
      subst h1; subst h2
      simp [search_restaurants, hne]
    · intro status results em h hcol
      obtain ⟨h1, h2, h3⟩ : status0 = status ∧ results0 = results ∧ em0 = em := by
        injection h with a b c; exact ⟨a, b, c⟩
      subst h1; subst h2
      simp [search_restaurants, hcol]

/-- Witness for C10: the missing-key path returns the simulated records. -/
theorem claim_C10_witness :
    search_restaurants PlacesOutcome.noKey "any" "Hyderabad" 3 = dummyRestaurants ∧
    search_restaurants PlacesOutcome.noKey "any" "Hyderabad" 3 ≠ [] :=
  ⟨(claim_C10 PlacesOutcome.noKey "any" "Hyderabad" 3).2.2.1 rfl,
   (claim_C10 PlacesOutcome.noKey "any" "Hyderabad" 3).1⟩

theorem agentLoop_eq_def (env : Env) (script : List ModelResponse)
    (st : AgentState) (parts : List Part) :
    agentLoop env script st parts =
      match parts with
      | [] => (st, .finalText respNoCandidates)
      | _ :: _ =>
        let tool_call_parts := parts.filterMap Part.getFC
        let text_response_parts := parts.filterMap Part.getText
        if tool_call_parts.isEmpty then
          if text_response_parts.isEmpty then
            (st, .finalText respNoContent)
          else
            let full_text_response := String.intercalate " " text_response_parts
            (⟨st.history ++ [HistEntry.modelText full_text_response], st.caches⟩,
              .finalText full_text_response)
        else
          let pr := processCalls env st.caches tool_call_parts
          let st1 : AgentState := ⟨st.history ++ [HistEntry.toolBatch pr.1], pr.2⟩
          match script with
          | [] => (st1, .upstreamFailure)
          | next :: rest => agentLoop env rest st1 next := by
  cases script <;> cases parts <;> rfl

theorem agentLoop_fallback (env : Env) (script : List ModelResponse)
    (st : AgentState) (parts : List Part)
    (hfc : parts.filterMap Part.getFC = [])
    (htx : parts.filterMap Part.getText = []) :
    agentLoop env script st parts =
      (st, .finalText (if parts.isEmpty then respNoCandidates else respNoContent)) := by
  rw [agentLoop_eq_def]
  cases parts with
  | nil => rfl
  | cons p ps => simp [hfc, htx]

theorem agentLoop_text (env : Env) (script : List ModelResponse)
    (st : AgentState) (parts : List Part)
    (hfc : parts.filterMap Part.getFC = [])
    (htx : parts.filterMap Part.getText ≠ []) :
    agentLoop env script st parts =
      (⟨st.history ++
          [HistEntry.modelText (String.intercalate " " (parts.filterMap Part.getText))],
        st.caches⟩,
       .finalText (String.intercalate " " (parts.filterMap Part.getText))) := by
  rw [agentLoop_eq_def]
  cases parts with
  | nil => exact absurd rfl htx
  | cons p ps =>
    cases h2 : (p :: ps).filterMap Part.getText with
    | nil => exact absurd h2 htx
    | cons c cs => simp [hfc, h2]

theorem agentLoop_tool (env : Env) (script : List ModelResponse)
    (st : AgentState) (parts : List Part)
    (hfc : parts.filterMap Part.getFC ≠ []) :
    agentLoop env script st parts =
      (match script with
       | [] =>
         (⟨st.history ++
             [HistEntry.toolBatch (processCalls env st.caches (parts.filterMap Part.getFC)).1],
           (processCalls env st.caches (parts.filterMap Part.getFC)).2⟩,
          .upstreamFailure)
       | next :: rest =>
         agentLoop env rest
           ⟨st.history ++
              [HistEntry.toolBatch (processCalls env st.caches (parts.filterMap Part.getFC)).1],
            (processCalls env st.caches (parts.filterMap Part.getFC)).2⟩
           next) := by
  rw [agentLoop_eq_def]
  cases parts with
  | nil => exact absurd rfl hfc
  | cons p ps =>
    cases h2 : (p :: ps).filterMap Part.getFC with
    | nil => exact absurd h2 hfc
    | cons c cs => simp [h2]

theorem processOneCall_name (env : Env) (caches : Caches) (fc : FunctionCall) :
    (processOneCall env caches fc).1.name = fc.name := by
  unfold processOneCall
  split_ifs with h
  · split <;> rfl
  · rfl

theorem processCalls_length (env : Env) :
    ∀ (calls : List FunctionCall) (caches : Caches),
      (processCalls env caches calls).1.length = calls.length := by
  intro calls
  induction calls with
  | nil => intro caches; rfl
  | cons c rest ih => intro caches; simp [processCalls, ih]

theorem processCalls_names (env : Env) :
    ∀ (calls : List FunctionCall) (caches : Caches),
      (processCalls env caches calls).1.map (fun r => r.name) =
        calls.map (fun c => c.name) := by
  intro calls
  induction calls with
  | nil => intro caches; rfl
  | cons c rest ih =>
    intro caches
    simp [processCalls, ih, processOneCall_name]

/-- Claim C2: a model response whose Parts contain N tool calls (even
alongside text) is handled by the tool branch: all N calls are executed
in the order received, and a single tool Turn holding exactly N results
— one per call, same order, success or failure — is appended before the
loop sends them back and awaits the next response. -/
theorem claim_C2 (env : Env) (st : AgentState) (parts : List Part)
    (next : ModelResponse) (rest : List ModelResponse)
    (hcalls : parts.filterMap Part.getFC ≠ []) :
    (processCalls env st.caches (parts.filterMap Part.getFC)).1.length =
      (parts.filterMap Part.getFC).length ∧
    (processCalls env st.caches (parts.filterMap Part.getFC)).1.map (fun r => r.name) =
      (parts.filterMap Part.getFC).map (fun c => c.name) ∧
    agentLoop env (next :: rest) st parts =
      agentLoop env rest
        ⟨st.history ++
           [HistEntry.toolBatch (processCalls env st.caches (parts.filterMap Part.getFC)).1],
         (processCalls env st.caches (parts.filterMap Part.getFC)).2⟩
        next := by
  exact ⟨processCalls_length env _ _, processCalls_names env _ _,
    agentLoop_tool env (next :: rest) st parts hcalls⟩

/-- Witness for C2: one batch containing one call, alongside nothing
else, is processed into one tool Turn and the loop consumes the next
scripted response. -/
theorem claim_C2_witness :
    (processCalls envBase st0.caches (respToolCall.filterMap Part.getFC)).1.length =
      (respToolCall.filterMap Part.getFC).length ∧
    (processCalls envBase st0.caches (respToolCall.filterMap Part.getFC)).1.map (fun r => r.name) =
      (respToolCall.filterMap Part.getFC).map (fun c => c.name) ∧
    agentLoop envBase (respDone :: []) st0 respToolCall =
      agentLoop envBase []
        ⟨st0.history ++
           [HistEntry.toolBatch (processCalls envBase st0.caches (respToolCall.filterMap Part.getFC)).1],
         (processCalls envBase st0.caches (respToolCall.filterMap Part.getFC)).2⟩
        respDone :=
  claim_C2 envBase st0 respToolCall respDone [] (by decide)

/-- Claim C3: a tool invocation whose execution raises is caught and
converted to an error payload carrying the message, and an unregistered
name yields the same structured-error shape with the not-found message;
in both cases `processOneCall` returns normally (the loop then proceeds
with the batch). -/
theorem claim_C3 (env : Env) (caches : Caches) (fc : FunctionCall) :
    (fc.name ∉ available_tools →
      processOneCall env caches fc =
        (⟨fc.name, .error (toolNotFoundMsg fc.name)⟩, caches)) ∧
    (∀ e, fc.name ∈ available_tools →
      runToolAttempt env caches fc.name fc.args = .error e →
      processOneCall env caches fc =
        (⟨fc.name, .error (execErrorMsg fc.name e)⟩, caches)) := by
  constructor
  · intro h
    simp [processOneCall, h]
  · intro e hmem herr
    simp [processOneCall, hmem, herr]

/-- Witness for C3: an unregistered name, and a registered tool whose
execution raises. -/
theorem claim_C3_witness :
    processOneCall envBase caches0 ⟨"bogus", []⟩ =
      (⟨"bogus", RespPayload.error (toolNotFoundMsg "bogus")⟩, caches0) ∧
    processOneCall envErr caches0 fcSearch =
      (⟨"Google Search", RespPayload.error (execErrorMsg "Google Search" "boom")⟩, caches0) :=
  ⟨(claim_C3 envBase caches0 ⟨"bogus", []⟩).1 (by decide),
   (claim_C3 envErr caches0 fcSearch).2 "boom" (by decide) rfl⟩

/-- Claim C8, counterexample to the original statement: a response with
no Parts terminates the turn with the fixed fallback message, but the
fallback is not appended to the Conversation State — the history gains
only the user Turn and no model Turn. -/
theorem claim_C8_counterexample :
    (handle_user_input envBase "hi" [] [] st0).1.history = [HistEntry.userMsg "hi"] ∧
    (handle_user_input envBase "hi" [] [] st0).2 = .finalText respNoCandidates ∧
    countModelEntries (handle_user_input envBase "hi" [] [] st0).1.history = 0 :=
  ⟨rfl, rfl, rfl⟩

/-- Claim C8 (amended: the loop terminates the turn with a fixed fallback
message — one message when the response has no Parts, another when the
Parts carry neither tool calls nor nonempty text — but does not append
the fallback to the Conversation State, which is left unchanged by these
branches). -/
theorem claim_C8 (env : Env) (script : List ModelResponse)
    (st : AgentState) (parts : List Part)
    (hfc : parts.filterMap Part.getFC = [])
    (htx : parts.filterMap Part.getText = []) :
    agentLoop env script st parts =
      (st, .finalText (if parts.isEmpty then respNoCandidates else respNoContent)) :=
  agentLoop_fallback env script st parts hfc htx

/-- Witness for C8: both fallback shapes at concrete inputs. -/
theorem claim_C8_witness :
    agentLoop envBase [] st0 [] = (st0, .finalText respNoCandidates) ∧
    agentLoop envBase [] st0 [Part.other] = (st0, .finalText respNoContent) :=
  ⟨claim_C8 envBase [] st0 [] rfl rfl,
   claim_C8 envBase [] st0 [Part.other] rfl rfl⟩

/-- Claim C5, counterexample to the original statement: an empty string
found under the `_str`-suffixed key is a string value, yet it is popped
and then dropped by the truthiness test without ever reaching the
resolver — even a resolver that succeeds on every input (here returning
`refMonday`) leaves no resolved instant under the unsuffixed key, and the
field vanishes from the arguments. -/
theorem claim_C5_counterexample :
    coerceOneKey resolverOK [("search_start_dt_str", ArgVal.str "")]
        "search_start_dt_str" "search_start_dt" = Except.ok [] ∧
    resolverOK "" = Except.ok refMonday ∧
    Except.ok ([] : Args) ≠
      (resolverOK "").map
        (fun dt => dictSet (dictRemove [("search_start_dt_str", ArgVal.str "")]
          "search_start_dt_str") "search_start_dt" (ArgVal.dtv dt)) := by
  refine ⟨rfl, rfl, ?_⟩
  intro h
  rw [show (resolverOK "").map
      (fun dt => dictSet (dictRemove [("search_start_dt_str", ArgVal.str "")]
        "search_start_dt_str") "search_start_dt" (ArgVal.dtv dt)) =
      Except.ok [("search_start_dt", ArgVal.dtv refMonday)] from rfl] at h
  exact absurd (Except.ok.inj h) (by simp)

/-- Claim C5 (amended: a non-empty string found under either key is
resolved — with the current instant as reference — and stored under the
unsuffixed key, preferring the `_str`-suffixed key; an empty-string value
is consumed but dropped without resolution; a field with neither
representation, or with a non-string unsuffixed value only, is left
untouched). -/
theorem claim_C5 (dp : String → Option PyDateTime)
    (rm : String → Option RegexMatch) (now : PyDateTime) (args : Args)
    (key_str key_dt : String) (s : String)
    (hkeys : (key_str, key_dt) ∈ dt_string_keys) :
    (dictGet args key_str = some (ArgVal.str s) → s ≠ "" →
      coerceOneKey (fun t => resolve_datetime_from_string dp rm t now) args key_str key_dt =
        (resolve_datetime_from_string dp rm s now).map
          (fun dt => dictSet (dictRemove args key_str) key_dt (ArgVal.dtv dt))) ∧
    (dictGet args key_str = none → dictGet args key_dt = some (ArgVal.str s) → s ≠ "" →
      coerceOneKey (fun t => resolve_datetime_from_string dp rm t now) args key_str key_dt =
        (resolve_datetime_from_string dp rm s now).map
          (fun dt => dictSet (dictRemove args key_dt) key_dt (ArgVal.dtv dt))) ∧
    (dictGet args key_str = none → dictGet args key_dt = none →
      coerceOneKey (fun t => resolve_datetime_from_string dp rm t now) args key_str key_dt =
        Except.ok args) ∧
    (∀ v, dictGet args key_str = none → dictGet args key_dt = some v →
      (∀ t, v ≠ ArgVal.str t) →
      coerceOneKey (fun t => resolve_datetime_from_string dp rm t now) args key_str key_dt =
        Except.ok args) := by
  refine ⟨?_, ?_, ?_, ?_⟩
  · intro h1 hs
    simp [coerceOneKey, h1, applyResolved, ArgVal.truthy, hs]
  · intro h1 h2 hs
    simp [coerceOneKey, h1, h2, applyResolved, ArgVal.truthy, hs]
  · intro h1 h2
    simp [coerceOneKey, h1, h2]
  · intro v h1 h2 hv
    cases v with
    | str t => exact absurd rfl (hv t)
    | dtv d => simp [coerceOneKey, h1, h2]
    | intv n => simp [coerceOneKey, h1, h2]
    | floatv q => simp [coerceOneKey, h1, h2]
    | boolv b => simp [coerceOneKey, h1, h2]
    | listv l => simp [coerceOneKey, h1, h2]

/-- Witness for C5: a non-empty string under the `_str` key of the
search-window start is resolved (here by the dateparser oracle) and
stored under `search_start_dt`. -/
theorem claim_C5_witness :
    coerceOneKey (fun t => resolve_datetime_from_string dpAlways rmNone t refMonday)
        [("search_start_dt_str", ArgVal.str "tomorrow")]
        "search_start_dt_str" "search_start_dt" =
      (resolve_datetime_from_string dpAlways rmNone "tomorrow" refMonday).map
        (fun dt => dictSet (dictRemove [("search_start_dt_str", ArgVal.str "tomorrow")]
          "search_start_dt_str") "search_start_dt" (ArgVal.dtv dt)) :=
  (claim_C5 dpAlways rmNone refMonday [("search_start_dt_str", ArgVal.str "tomorrow")]
    "search_start_dt_str" "search_start_dt" "tomorrow" (by decide)).1 rfl (by decide)

theorem countTool_append (a b : List HistEntry) :
    countToolEntries (a ++ b) = countToolEntries a + countToolEntries b :=
  List.countP_append _ a b

theorem countModel_append (a b : List HistEntry) :
    countModelEntries (a ++ b) = countModelEntries a + countModelEntries b :=
  List.countP_append _ a b

theorem agentLoop_measures (env : Env) :
    ∀ (script : List ModelResponse) (st : AgentState) (parts : List Part),
      st.history <+: (agentLoop env script st parts).1.history ∧
      countToolEntries (agentLoop env script st parts).1.history =
        countToolEntries st.history + numBatches script parts ∧
      countModelEntries (agentLoop env script st parts).1.history =
        countModelEntries st.history + numModelAppends script parts := by
  intro script
  induction script with
  | nil =>
    intro st parts
    cases parts with
    | nil =>
      rw [agentLoop_fallback env [] st [] rfl rfl]
      exact ⟨List.prefix_rfl, by simp [numBatches], by simp [numModelAppends]⟩
    | cons p ps =>
      by_cases hfc : (p :: ps).filterMap Part.getFC = []
      · by_cases htx : (p :: ps).filterMap Part.getText = []
        · rw [agentLoop_fallback env [] st _ hfc htx]
          exact ⟨List.prefix_rfl, by simp [numBatches, hfc],
            by simp [numModelAppends, hfc, htx]⟩
        · rw [agentLoop_text env [] st _ hfc htx]
          cases h2 : (p :: ps).filterMap Part.getText with
          | nil => exact absurd h2 htx
          | cons c cs =>
            refine ⟨List.prefix_append _ _, ?_, ?_⟩
            · rw [countTool_append]
              simp [countToolEntries, List.countP_cons, isToolEntry, numBatches, hfc]
            · rw [countModel_append]
              simp [countModelEntries, List.countP_cons, isModelEntry,
                numModelAppends, hfc, h2]
      · rw [agentLoop_tool env [] st _ hfc]
        cases h2 : (p :: ps).filterMap Part.getFC with
        | nil => exact absurd h2 hfc
        | cons c cs =>
          refine ⟨List.prefix_append _ _, ?_, ?_⟩
          · rw [countTool_append]
            simp [countToolEntries, List.countP_cons, isToolEntry, numBatches, h2]
          · rw [countModel_append]
            simp [countModelEntries, List.countP_cons, isModelEntry,
              numModelAppends, h2]
  | cons next rest ih =>
    intro st parts
    cases parts with
    | nil =>
      rw [agentLoop_fallback env (next :: rest) st [] rfl rfl]
      exact ⟨List.prefix_rfl, by simp [numBatches], by simp [numModelAppends]⟩
    | cons p ps =>
      by_cases hfc : (p :: ps).filterMap Part.getFC = []
      · by_cases htx : (p :: ps).filterMap Part.getText = []
        · rw [agentLoop_fallback env (next :: rest) st _ hfc htx]
          exact ⟨List.prefix_rfl, by simp [numBatches, hfc],
            by simp [numModelAppends, hfc, htx]⟩
        · rw [agentLoop_text env (next :: rest) st _ hfc htx]
          cases h2 : (p :: ps).filterMap Part.getText with
          | nil => exact absurd h2 htx
          | cons c cs =>
            refine ⟨List.prefix_append _ _, ?_, ?_⟩
            · rw [countTool_append]
              simp [countToolEntries, List.countP_cons, isToolEntry, numBatches, hfc]
            · rw [countModel_append]
              simp [countModelEntries, List.countP_cons, isModelEntry,
                numModelAppends, hfc, h2]
      · rw [agentLoop_tool env (next :: rest) st _ hfc]
        dsimp only
        obtain ⟨ih1, ih2, ih3⟩ := ih
          ⟨st.history ++
             [HistEntry.toolBatch (processCalls env st.caches ((p :: ps).filterMap Part.getFC)).1],
           (processCalls env st.caches ((p :: ps).filterMap Part.getFC)).2⟩ next
        refine ⟨(List.prefix_append _ _).trans ih1, ?_, ?_⟩
        · rw [ih2, countTool_append]
          cases h2 : (p :: ps).filterMap Part.getFC with
          | nil => exact absurd h2 hfc
          | cons c cs =>
            simp [countToolEntries, List.countP_cons, isToolEntry, numBatches, h2]
            omega
        · rw [ih3, countModel_append]
          cases h2 : (p :: ps).filterMap Part.getFC with
          | nil => exact absurd h2 hfc
          | cons c cs =>
            simp [countModelEntries, List.countP_cons, isModelEntry,
              numModelAppends, h2]

/-- Claim C1, counterexample to the original statement: in a run that
receives three model responses (a tool-call response, a second tool-call
response after the first batch, and a final text response), only two
model Turns reach the Conversation State — the in-loop tool-call
response is processed without being appended — so the history does not
grow by one Turn per model response received. -/
theorem claim_C1_counterexample :
    numResponsesProcessed [respToolCall, respDone] respToolCall = 3 ∧
    countModelEntries
      ((handle_user_input envBase "hi" respToolCall [respToolCall, respDone] st0).1.history) = 2 ∧
    ((handle_user_input envBase "hi" respToolCall [respToolCall, respDone] st0).1.history).length = 5 :=
  ⟨rfl, rfl, rfl⟩

/-- Claim C1 (amended: the Conversation State is append-only — it never
shrinks — and grows by exactly one tool Turn per tool-result batch; the
first model response of the turn is appended as a model Turn, before
processing, exactly when it has at least one Part, and one further model
Turn is appended per text-terminal response; model responses received
after tool results that themselves contain tool calls are processed
without being appended). -/
theorem claim_C1 (env : Env) (user_input : String) (firstResponse : List Part)
    (script : List ModelResponse) (st : AgentState) :
    st.history <+:
      (handle_user_input env user_input firstResponse script st).1.history ∧
    countToolEntries (handle_user_input env user_input firstResponse script st).1.history =
      countToolEntries st.history + numBatches script firstResponse ∧
    countModelEntries (handle_user_input env user_input firstResponse script st).1.history =
      countModelEntries st.history + (if firstResponse.isEmpty then 0 else 1) +
        numModelAppends script firstResponse := by
  cases firstResponse with
  | nil =>
    have hdef : handle_user_input env user_input [] script st =
        agentLoop env script ⟨st.history ++ [HistEntry.userMsg user_input], st.caches⟩ [] := rfl
    obtain ⟨h1, h2, h3⟩ := agentLoop_measures env script
      ⟨st.history ++ [HistEntry.userMsg user_input], st.caches⟩ []
    rw [hdef]
    refine ⟨(List.prefix_append _ _).trans h1, ?_, ?_⟩
    · rw [h2, countTool_append]
      simp [countToolEntries, List.countP_cons, isToolEntry]
    · rw [h3, countModel_append]
      simp [countModelEntries, List.countP_cons, isModelEntry]
  | cons p ps =>
    have hdef : handle_user_input env user_input (p :: ps) script st =
        agentLoop env script
          ⟨(st.history ++ [HistEntry.userMsg user_input]) ++
             [HistEntry.modelContent (p :: ps)], st.caches⟩ (p :: ps) := rfl
    obtain ⟨h1, h2, h3⟩ := agentLoop_measures env script
      ⟨(st.history ++ [HistEntry.userMsg user_input]) ++
         [HistEntry.modelContent (p :: ps)], st.caches⟩ (p :: ps)
    rw [hdef]
    refine ⟨((List.prefix_append _ _).trans (List.prefix_append _ _)).trans h1, ?_, ?_⟩
    · rw [h2, countTool_append, countTool_append]
      simp [countToolEntries, List.countP_cons, isToolEntry]
    · rw [h3, countModel_append, countModel_append]
      simp [countModelEntries, List.countP_cons, isModelEntry]

theorem mergeLoop_covers : ∀ (l : List (Int × Int)) (cs ce : Int),
    (∀ q ∈ l, cs ≤ q.1) → List.Pairwise (fun a b : Int × Int => a.1 ≤ b.1) l →
    ∀ o : Int × Int, (o = (cs, ce) ∨ o ∈ l) →
    ∃ m ∈ mergeLoop cs ce l, m.1 ≤ o.1 ∧ o.2 ≤ m.2 := by
  intro l
  induction l with
  | nil =>
    intro cs ce _ _ o ho
    rcases ho with rfl | h
    · exact ⟨(cs, ce), by simp [mergeLoop], le_refl _, le_refl _⟩
    · simp at h
  | cons q rest ih =>
    obtain ⟨ns, ne⟩ := q
    intro cs ce hge hpair o ho
    have hcsns : cs ≤ ns := hge (ns, ne) (List.mem_cons_self _ _)
    have hrest_ge : ∀ r ∈ rest, ns ≤ r.1 := (List.pairwise_cons.mp hpair).1
    have hpair_rest := (List.pairwise_cons.mp hpair).2
    have hunf : mergeLoop cs ce ((ns, ne) :: rest) =
        if ns ≤ ce then mergeLoop cs (max ce ne) rest
        else (cs, ce) :: mergeLoop ns ne rest := rfl
    by_cases hle : ns ≤ ce
    · rw [hunf, if_pos hle]
      have hge2 : ∀ r ∈ rest, cs ≤ r.1 := fun r hr => le_trans hcsns (hrest_ge r hr)
      rcases ho with rfl | hmem
      · obtain ⟨m, hm, hm1, hm2⟩ :=
          ih cs (max ce ne) hge2 hpair_rest (cs, max ce ne) (Or.inl rfl)
        exact ⟨m, hm, hm1, le_trans (le_max_left _ _) hm2⟩
      · rcases List.mem_cons.mp hmem with heq | hmem2
        · obtain ⟨m, hm, hm1, hm2⟩ :=
            ih cs (max ce ne) hge2 hpair_rest (cs, max ce ne) (Or.inl rfl)
          refine ⟨m, hm, ?_, ?_⟩
          · rw [heq]; exact le_trans hm1 hcsns
          · rw [heq]; exact le_trans (le_max_right _ _) hm2
        · exact ih cs (max ce ne) hge2 hpair_rest o (Or.inr hmem2)
    · rw [hunf, if_neg hle]
      rcases ho with rfl | hmem
      · exact ⟨(cs, ce), List.mem_cons_self _ _, le_refl _, le_refl _⟩
      · obtain ⟨m, hm, hm1, hm2⟩ := ih ns ne hrest_ge hpair_rest o
          (by rcases List.mem_cons.mp hmem with h | h
              · exact Or.inl h
              · exact Or.inr h)
        exact ⟨m, List.mem_cons_of_mem _ hm, hm1, hm2⟩

theorem busy_covered (busy : List (Int × Int)) :
    ∀ b ∈ busy, ∃ m ∈ mergeIntervals busy, m.1 ≤ b.1 ∧ b.2 ≤ m.2 := by
  intro b hb
  have hbs : b ∈ sortIntervals busy := by
    unfold sortIntervals
    exact (List.mem_insertionSort lexLe).mpr hb
  have hsorted : List.Sorted lexLe (sortIntervals busy) :=
    List.sorted_insertionSort lexLe busy
  cases hs : sortIntervals busy with
  | nil => rw [hs] at hbs; simp at hbs
  | cons q t =>
    obtain ⟨cs, ce⟩ := q
    rw [hs] at hbs hsorted
    have h1 : ∀ r ∈ t, cs ≤ r.1 := by
      intro r hr
      have hx := List.rel_of_sorted_cons hsorted r hr
      rcases hx with h | ⟨h, _⟩ <;> omega
    have h2 : List.Pairwise (fun a b : Int × Int => a.1 ≤ b.1) t := by
      refine List.Pairwise.imp ?_ hsorted.of_cons
      intro a b hab
      rcases hab with h | ⟨h, _⟩ <;> omega
    have hmerge : mergeIntervals busy = mergeLoop cs ce t := by
      unfold mergeIntervals
      rw [hs]
    rw [hmerge]
    exact mergeLoop_covers t cs ce h1 h2 b
      (by rcases List.mem_cons.mp hbs with h | h
          · exact Or.inl h
          · exact Or.inr h)

theorem collectSlots_mem (dur : Int) (busy : List (Int × Int)) (sEnd : Int) :
    ∀ (s : Int) (p : Int × Int),
      p ∈ collectSlots dur busy sEnd s ↔
        ∃ k : Nat, p.1 = s + 30 * (k : Int) ∧ p.2 = p.1 + dur ∧ p.2 ≤ sEnd ∧
          slotIsFree p.1 p.2 busy = true := by
  intro s
  induction s using collectSlots.induct dur busy sEnd with
  | case1 s hcond ih =>
    intro p
    rw [collectSlots, if_pos hcond]
    constructor
    · intro hp
      rcases List.mem_append.mp hp with hL | hR
      · by_cases hf : slotIsFree s (s + dur) busy = true
        · rw [if_pos hf] at hL
          have hpe : p = (s, s + dur) := List.mem_singleton.mp hL
          refine ⟨0, ?_, ?_, ?_, ?_⟩
          · rw [hpe]; simp
          · rw [hpe]
          · rw [hpe]; exact hcond
          · rw [hpe]; exact hf
        · rw [if_neg hf] at hL
          simp at hL
      · obtain ⟨k, hk1, hk2, hk3, hk4⟩ := (ih p).mp hR
        refine ⟨k + 1, ?_, hk2, hk3, hk4⟩
        push_cast
        omega
    · rintro ⟨k, hk1, hk2, hk3, hk4⟩
      cases k with
      | zero =>
        have hp1 : p.1 = s := by simpa using hk1
        have hpe : p = (s, s + dur) := Prod.ext hp1 (by rw [hk2, hp1])
        subst hpe
        have hk4' : slotIsFree s (s + dur) busy = true := hk4
        apply List.mem_append_left
        rw [if_pos hk4']
        exact List.mem_singleton.mpr rfl
      | succ n =>
        apply List.mem_append_right
        apply (ih p).mpr
        refine ⟨n, ?_, hk2, hk3, hk4⟩
        push_cast at hk1 ⊢
        omega
  | case2 s hcond =>
    intro p
    rw [collectSlots, if_neg hcond]
    constructor
    · intro hp; simp at hp
    · rintro ⟨k, hk1, hk2, hk3, hk4⟩
      exfalso
      have hk0 : (0 : Int) ≤ 30 * (k : Int) := by positivity
      omega

theorem collectSlots_pairwise (dur : Int) (busy : List (Int × Int)) (sEnd : Int) :
    ∀ s : Int,
      List.Pairwise (fun a b : Int × Int => a.1 < b.1) (collectSlots dur busy sEnd s) := by
  intro s
  induction s using collectSlots.induct dur busy sEnd with
  | case1 s hcond ih =>
    rw [collectSlots, if_pos hcond]
    rw [List.pairwise_append]
    refine ⟨?_, ih, ?_⟩
    · by_cases hf : slotIsFree s (s + dur) busy = true
      · rw [if_pos hf]; simp
      · rw [if_neg hf]; simp
    · intro a ha b hb
      obtain ⟨k, hk1, _, _, _⟩ := (collectSlots_mem dur busy sEnd (s + 30) b).mp hb
      have hae : a = (s, s + dur) := by
        by_cases hf : slotIsFree s (s + dur) busy = true
        · rw [if_pos hf] at ha; exact List.mem_singleton.mp ha
        · rw [if_neg hf] at ha; simp at ha
      rw [hae]
      have hk0 : (0 : Int) ≤ 30 * (k : Int) := by positivity
      simp only
      omega
  | case2 s hcond =>
    rw [collectSlots, if_neg hcond]
    exact List.Pairwise.nil

/-- Claim C6: `check_calendar_availability` returns at most 3 slot
records; every returned slot ends exactly `slot_duration_minutes` after
its start, lies inside the search window, and overlaps no busy interval
reported by the free/busy query; the candidate starts are scanned
chronologically 30 minutes apart, so the result is the 3-element prefix
of the ascending list of all free candidates (and every failure path of
the query returns the empty list). -/
theorem claim_C6 (busy : List (Int × Int))
    (search_start_dt search_end_dt slot_duration_minutes : Int) :
    check_calendar_availability none search_start_dt search_end_dt
      slot_duration_minutes = [] ∧
    (check_calendar_availability (some busy) search_start_dt search_end_dt
      slot_duration_minutes).length ≤ 3 ∧
    List.Pairwise (fun a b : Int × Int => a.1 < b.1)
      (check_calendar_availability (some busy) search_start_dt search_end_dt
        slot_duration_minutes) ∧
    (∀ p ∈ check_calendar_availability (some busy) search_start_dt search_end_dt
        slot_duration_minutes,
      p.2 = p.1 + slot_duration_minutes ∧ search_start_dt ≤ p.1 ∧
      p.2 ≤ search_end_dt ∧ ∀ b ∈ busy, p.2 ≤ b.1 ∨ b.2 ≤ p.1) ∧
    check_calendar_availability (some busy) search_start_dt search_end_dt
        slot_duration_minutes =
      (collectSlots slot_duration_minutes (mergeIntervals busy) search_end_dt
        search_start_dt).take 3 ∧
    (∀ p : Int × Int,
      p ∈ collectSlots slot_duration_minutes (mergeIntervals busy) search_end_dt
          search_start_dt ↔
      ∃ k : Nat, p.1 = search_start_dt + 30 * (k : Int) ∧
        p.2 = p.1 + slot_duration_minutes ∧ p.2 ≤ search_end_dt ∧
        slotIsFree p.1 p.2 (mergeIntervals busy) = true) := by
  refine ⟨rfl, List.length_take_le _ _, ?_, ?_, rfl,
    fun p => collectSlots_mem slot_duration_minutes (mergeIntervals busy)
      search_end_dt search_start_dt p⟩
  · exact (collectSlots_pairwise slot_duration_minutes (mergeIntervals busy)
      search_end_dt search_start_dt).sublist (List.take_sublist _ _)
  · intro p hp
    have hfull : p ∈ collectSlots slot_duration_minutes (mergeIntervals busy)
        search_end_dt search_start_dt := List.mem_of_mem_take hp
    obtain ⟨k, hk1, hk2, hk3, hk4⟩ :=
      (collectSlots_mem slot_duration_minutes (mergeIntervals busy)
        search_end_dt search_start_dt p).mp hfull
    have hk0 : (0 : Int) ≤ 30 * (k : Int) := by positivity
    refine ⟨hk2, by omega, hk3, ?_⟩
    intro b hb
    obtain ⟨m, hm, hm1, hm2⟩ := busy_covered busy b hb
    have hall := List.all_eq_true.mp hk4 m hm
    simp only [Bool.or_eq_true, decide_eq_true_eq, ge_iff_le] at hall
    rcases hall with h | h
    · exact Or.inl (le_trans h hm1)
    · exact Or.inr (le_trans hm2 h)

/-- Witness for C6 at a concrete busy set and window. -/
theorem claim_C6_witness :
    (check_calendar_availability (some [((0 : Int), (60 : Int))]) 0 240 120).length ≤ 3 ∧
    check_calendar_availability none 0 240 120 = [] :=
  ⟨(claim_C6 [((0 : Int), (60 : Int))] 0 240 120).2.1,
   (claim_C6 [((0 : Int), (60 : Int))] 0 240 120).1⟩

end ProAssist
